import Mathlib

/-! ## Definitions: shallow embedding of the sources -/

structure RingBuffer where
  buffer : List Nat
  size : Nat
  head : Nat
  tail : Nat
deriving Repr, DecidableEq

/-- `lockfree_available_internal` (ring_buffer_lockfree.c, lines 35-45). -/
def lockfree_available_internal (rb : RingBuffer) : Nat :=
  if rb.head ≥ rb.tail then rb.head - rb.tail
  else rb.size - rb.tail + rb.head

/-- `lockfree_free_space_internal` (ring_buffer_lockfree.c, lines 50-53). -/
def lockfree_free_space_internal (rb : RingBuffer) : Nat :=
  rb.size - 1 - lockfree_available_internal rb

/-- `lockfree_write` (ring_buffer_lockfree.c, lines 57-90); returns the new
state and the `bool` result. -/
def lockfree_write (rb : RingBuffer) (data : Nat) : RingBuffer × Bool :=
  let next_head := (rb.head + 1) % rb.size
  if next_head = rb.tail then (rb, false)
  else ({ rb with buffer := rb.buffer.set rb.head data, head := next_head }, true)

/-- `lockfree_read` (ring_buffer_lockfree.c, lines 92-125); the out-parameter
byte becomes an `Option Nat` result. -/
def lockfree_read (rb : RingBuffer) : RingBuffer × Option Nat :=
  if rb.tail = rb.head then (rb, none)
  else ({ rb with tail := (rb.tail + 1) % rb.size }, some (rb.buffer.getD rb.tail 0))

/-- `memcpy(&buf[pos], src, src.length)`: overwrite `buf` starting at index
`pos` with the bytes of `src`. -/
def copySeg (buf : List Nat) (pos : Nat) (src : List Nat) : List Nat :=
  match src with
  | [] => buf
  | b :: rest => copySeg (buf.set pos b) (pos + 1) rest

/-- `lockfree_write_multi` (ring_buffer_lockfree.c, lines 127-196).  The C
contract requires the source pointer to address at least `len` readable bytes;
`data.take` reads exactly the copied prefix. -/
def lockfree_write_multi (rb : RingBuffer) (data : List Nat) (len : Nat) :
    RingBuffer × Nat :=
  if len = 0 then (rb, 0) else
  let free := lockfree_free_space_internal rb
  let to_write := if len > free then free else len
  if to_write = 0 then (rb, 0) else
  if rb.head + to_write ≤ rb.size then
    ({ rb with buffer := copySeg rb.buffer rb.head (data.take to_write),
               head := (rb.head + to_write) % rb.size }, to_write)
  else
    let first_chunk := rb.size - rb.head
    let second_chunk := to_write - first_chunk
    ({ rb with buffer := copySeg (copySeg rb.buffer rb.head (data.take first_chunk)) 0
                           ((data.drop first_chunk).take second_chunk),
               head := second_chunk }, to_write)

/-- `lockfree_read_multi` (ring_buffer_lockfree.c, lines 198-261).  The bytes
`memcpy`ed into the caller's out-buffer are returned as a list. -/
def lockfree_read_multi (rb : RingBuffer) (len : Nat) : RingBuffer × List Nat :=
  if len = 0 then (rb, []) else
  let avail := lockfree_available_internal rb
  let to_read := if len > avail then avail else len
  if to_read = 0 then (rb, []) else
  if rb.tail + to_read ≤ rb.size then
    ({ rb with tail := (rb.tail + to_read) % rb.size },
      (rb.buffer.drop rb.tail).take to_read)
  else
    let first_chunk := rb.size - rb.tail
    let second_chunk := to_read - first_chunk
    ({ rb with tail := second_chunk },
      (rb.buffer.drop rb.tail).take first_chunk ++ rb.buffer.take second_chunk)

/-- `lockfree_is_empty` (ring_buffer_lockfree.c, lines 285-294). -/
def lockfree_is_empty (rb : RingBuffer) : Bool :=
  rb.head = rb.tail

/-- `lockfree_is_full` (ring_buffer_lockfree.c, lines 296-305). -/
def lockfree_is_full (rb : RingBuffer) : Bool :=
  (rb.head + 1) % rb.size = rb.tail

/-- `lockfree_clear` (ring_buffer_lockfree.c, lines 307-324). -/
def lockfree_clear (rb : RingBuffer) : RingBuffer :=
  { rb with tail := rb.head }

/-- One call into the core operation set. -/
inductive RBOp where
  | write (b : Nat)
  | read
  | writeMulti (data : List Nat) (len : Nat)
  | readMulti (len : Nat)
  | clear

/-- State transition of one operation (the value returned to the caller is
dropped; it is recovered by the per-operation theorems). -/
def applyOp (rb : RingBuffer) : RBOp → RingBuffer
  | .write b => (lockfree_write rb b).1
  | .read => (lockfree_read rb).1
  | .writeMulti data len => (lockfree_write_multi rb data len).1
  | .readMulti len => (lockfree_read_multi rb len).1
  | .clear => lockfree_clear rb

/-- Caller-side contract of an operation: `write_multi(data, len)` must be
given at least `len` readable source bytes (C undefined behaviour otherwise). -/
def opWF : RBOp → Prop
  | .writeMulti data len => len ≤ data.length
  | _ => True

/-- Buffer state immediately after `ring_buffer_init_common`
(ring_buffer.c, lines 39-70): indices zero, caller storage bound. -/
def initRB (storage : List Nat) (size : Nat) : RingBuffer :=
  { buffer := storage, size := size, head := 0, tail := 0 }

/-- Run a sequence of operations. -/
def runOps (rb : RingBuffer) : List RBOp → RingBuffer
  | [] => rb
  | op :: rest => runOps (applyOp rb op) rest

/-- A state is reachable iff it arises from a successfully created buffer
(`2 ≤ size`, storage of exactly `size` bytes, `size` a `uint16_t` value) by a
sequence of operations respecting the caller contract. -/
def Reachable (rb : RingBuffer) : Prop :=
  ∃ (storage : List Nat) (size : Nat) (ops : List RBOp),
    2 ≤ size ∧ size ≤ 65535 ∧ storage.length = size ∧
    (∀ op ∈ ops, opWF op) ∧ rb = runOps (initRB storage size) ops

/-- Well-formedness invariant maintained by every operation. -/
def WF (rb : RingBuffer) : Prop :=
  2 ≤ rb.size ∧ rb.size ≤ 65535 ∧ rb.head < rb.size ∧ rb.tail < rb.size ∧
    rb.buffer.length = rb.size

/-- The unread bytes currently held by the buffer, oldest first: the
`available` bytes starting at `tail`, wrapping at the end of storage. -/
def contents (rb : RingBuffer) : List Nat :=
  if rb.head ≥ rb.tail then (rb.buffer.drop rb.tail).take (rb.head - rb.tail)
  else rb.buffer.drop rb.tail ++ rb.buffer.take rb.head

/-- Reference FIFO behaviour of one operation on the queue of pending bytes,
for a buffer of total size `cap` (usable capacity `cap - 1`). -/
def modelStep (cap : Nat) (q : List Nat) : RBOp → List Nat
  | .write b => if q.length = cap - 1 then q else q ++ [b]
  | .read => q.drop 1
  | .writeMulti data len => q ++ data.take (min len (cap - 1 - q.length))
  | .readMulti len => q.drop (min len q.length)
  | .clear => []

/-- Reference FIFO behaviour of an operation sequence. -/
def modelRun (cap : Nat) (q : List Nat) : List RBOp → List Nat
  | [] => q
  | op :: rest => modelRun cap (modelStep cap q op) rest

-- quick sanity checks on concrete data

/-- Write the given bytes one at a time with `lockfree_write`; the flag is
true iff every single-byte write reported success. -/
def writeAll (rb : RingBuffer) : List Nat → RingBuffer × Bool
  | [] => (rb, true)
  | b :: rest =>
    let p := lockfree_write rb b
    let q := writeAll p.1 rest
    (q.1, p.2 && q.2)

/-- Read `n` single bytes with `lockfree_read`, collecting the results. -/
def readN (rb : RingBuffer) : Nat → RingBuffer × List (Option Nat)
  | 0 => (rb, [])
  | Nat.succ k =>
    let p := lockfree_read rb
    let q := readN p.1 k
    (q.1, p.2 :: q.2)

/-- State after writing bytes 0..6 into a freshly created size-8 buffer. -/
def wrapS1 : RingBuffer × Bool :=
  writeAll (initRB (List.replicate 8 0) 8) [0, 1, 2, 3, 4, 5, 6]

/-- State after then reading three single bytes. -/
def wrapS2 : RingBuffer × List (Option Nat) := readN wrapS1.1 3

/-- State after then writing three more bytes (these wrap past the end). -/
def wrapS3 : RingBuffer × Bool := writeAll wrapS2.1 [100, 101, 102]

structure DescState where
  buffer : Option (List Nat)
  size : Nat
  head : Nat
  tail : Nat

/-- `ring_buffer_ops_t` (ring_buffer.h, lines 57-67): a table of function
pointers, one per operation. -/
structure RBOpsTable where
  write : DescState → Nat → DescState × Bool
  read : DescState → DescState × Option Nat
  write_multi : DescState → List Nat → Nat → DescState × Nat
  read_multi : DescState → Nat → DescState × List Nat
  available : DescState → Nat
  free_space : DescState → Nat
  is_empty : DescState → Bool
  is_full : DescState → Bool
  clear : DescState → DescState

/-- `ring_buffer_t` (ring_buffer.h, lines 39-52): the algorithm fields plus
the lock handle (`lock != NULL` modelled as a flag) and the bound operation
set. -/
structure RBDesc where
  core : DescState
  lock : Bool
  ops : Option RBOpsTable

/-- View the algorithm fields as a core-layer state (the `available` /
`free_space` / index-only operations never dereference `buffer`). -/
def coreOf (d : DescState) (buf : List Nat) : RingBuffer :=
  { buffer := buf, size := d.size, head := d.head, tail := d.tail }

/-- Project a core-layer state back into the descriptor fields. -/
def ofCore (rb : RingBuffer) : DescState :=
  { buffer := some rb.buffer, size := rb.size, head := rb.head, tail := rb.tail }

/-- Descriptor-level `lockfree_write`: the `buffer == NULL` defensive check
(ring_buffer_lockfree.c, lines 65-68), then the core algorithm. -/
def lf_write (d : DescState) (b : Nat) : DescState × Bool :=
  match d.buffer with
  | none => (d, false)
  | some buf =>
    let p := lockfree_write (coreOf d buf) b
    (ofCore p.1, p.2)

/-- Descriptor-level `lockfree_read` (the out-pointer check of the C code is
subsumed by returning the byte as `Option`). -/
def lf_read (d : DescState) : DescState × Option Nat :=
  match d.buffer with
  | none => (d, none)
  | some buf =>
    let p := lockfree_read (coreOf d buf)
    (ofCore p.1, p.2)

/-- Descriptor-level `lockfree_write_multi`. -/
def lf_write_multi (d : DescState) (data : List Nat) (len : Nat) :
    DescState × Nat :=
  match d.buffer with
  | none => (d, 0)
  | some buf =>
    let p := lockfree_write_multi (coreOf d buf) data len
    (ofCore p.1, p.2)

/-- Descriptor-level `lockfree_read_multi`. -/
def lf_read_multi (d : DescState) (len : Nat) : DescState × List Nat :=
  match d.buffer with
  | none => (d, [])
  | some buf =>
    let p := lockfree_read_multi (coreOf d buf) len
    (ofCore p.1, p.2)

/-- Descriptor-level `lockfree_available` (no buffer dereference). -/
def lf_available (d : DescState) : Nat :=
  lockfree_available_internal (coreOf d [])

/-- Descriptor-level `lockfree_free_space`. -/
def lf_free_space (d : DescState) : Nat :=
  lockfree_free_space_internal (coreOf d [])

/-- Descriptor-level `lockfree_is_empty`. -/
def lf_is_empty (d : DescState) : Bool := d.head = d.tail

/-- Descriptor-level `lockfree_is_full`. -/
def lf_is_full (d : DescState) : Bool := (d.head + 1) % d.size = d.tail

/-- Descriptor-level `lockfree_clear`. -/
def lf_clear (d : DescState) : DescState := { d with tail := d.head }

/-- `ring_buffer_lockfree_ops` (ring_buffer_lockfree.c, lines 328-338). -/
def ring_buffer_lockfree_ops : RBOpsTable :=
  { write := lf_write, read := lf_read, write_multi := lf_write_multi,
    read_multi := lf_read_multi, available := lf_available,
    free_space := lf_free_space, is_empty := lf_is_empty,
    is_full := lf_is_full, clear := lf_clear }

/-- Strategy type tags (ring_buffer.h, lines 29-34). -/
def RING_BUFFER_TYPE_LOCKFREE : Nat := 0

def RING_BUFFER_TYPE_DISABLE_IRQ : Nat := 1

def RING_BUFFER_TYPE_MUTEX : Nat := 2

def RING_BUFFER_TYPE_CUSTOM_BASE : Nat := 3

/-- `RING_BUFFER_MIN_SIZE` (ring_buffer_config.h, line 69). -/
def RING_BUFFER_MIN_SIZE : Nat := 2

/-- `RING_BUFFER_MAX_CUSTOM_OPS` (ring_buffer_config.h, line 76). -/
def RING_BUFFER_MAX_CUSTOM_OPS : Nat := 4

/-- `custom_ops_registry` with its entry count: the filled prefix of the
fixed array, in registration order. -/
abbrev Registry := List (Nat × RBOpsTable)

/-- `find_custom_ops` (ring_buffer.c, lines 72-80): linear scan, first
match. -/
def find_custom_ops : Registry → Nat → Option RBOpsTable
  | [], _ => none
  | (tag, ops) :: rest, type =>
    if tag = type then some ops else find_custom_ops rest type

/-- `ring_buffer_register_ops` (ring_buffer.c, lines 160-188). -/
def ring_buffer_register_ops (reg : Registry) (type : Nat)
    (ops : Option RBOpsTable) : Registry × Bool :=
  match ops with
  | none => (reg, false)
  | some o =>
    if type < RING_BUFFER_TYPE_CUSTOM_BASE then (reg, false)
    else if RING_BUFFER_MAX_CUSTOM_OPS ≤ reg.length then (reg, false)
    else if (find_custom_ops reg type).isSome then (reg, false)
    else (reg ++ [(type, o)], true)

/-- `ring_buffer_init_common` (ring_buffer.c, lines 39-70).  On a `NULL`
buffer or undersized capacity it returns `false` without touching any
descriptor field. -/
def ring_buffer_init_common (d : RBDesc) (buffer : Option (List Nat))
    (size : Nat) : RBDesc × Bool :=
  match buffer with
  | none => (d, false)
  | some buf =>
    if size < RING_BUFFER_MIN_SIZE then (d, false)
    else ({ core := { buffer := some buf, size := size, head := 0, tail := 0 },
            lock := false, ops := none }, true)

/-- `ring_buffer_create` (ring_buffer.c, lines 83-135), as compiled under
`ring_buffer_config.h` (only `RING_BUFFER_ENABLE_LOCKFREE` is set, so the
`DISABLE_IRQ` and `MUTEX` switch cases are compiled out and those tags fall
into the unsupported default). -/
def ring_buffer_create (reg : Registry) (rb : Option RBDesc)
    (buffer : Option (List Nat)) (size : Nat) (type : Nat) :
    Option RBDesc × Bool :=
  match rb with
  | none => (none, false)
  | some d =>
    let p := ring_buffer_init_common d buffer size
    if p.2 = false then (some p.1, false)
    else if type = RING_BUFFER_TYPE_LOCKFREE then
      (some { p.1 with ops := some ring_buffer_lockfree_ops }, true)
    else if RING_BUFFER_TYPE_CUSTOM_BASE ≤ type then
      match find_custom_ops reg type with
      | some custom_ops => (some { p.1 with ops := some custom_ops }, true)
      | none => (some p.1, false)
    else (some p.1, false)

/-- `ring_buffer_mutex_deinit` (ring_buffer_mutex.c, lines 54-71): deletes
the mutex only when the handle is present, then nulls it; the second
component counts `MUTEX_DELETE` invocations. -/
def ring_buffer_mutex_deinit (d : RBDesc) : RBDesc × Nat :=
  if d.lock = false then (d, 0)
  else ({ d with lock := false }, 1)

/-- The descriptor as `ring_buffer_destroy` leaves it: every field zeroed. -/
def zeroedDesc : RBDesc :=
  { core := { buffer := none, size := 0, head := 0, tail := 0 },
    lock := false, ops := none }

/-- `ring_buffer_destroy` (ring_buffer.c, lines 137-158): release the lock
resource if one is held, then zero all fields.  The second component counts
lock releases performed by the call. -/
def ring_buffer_destroy (rb : Option RBDesc) : Option RBDesc × Nat :=
  match rb with
  | none => (none, 0)
  | some d =>
    let p := if d.lock then ring_buffer_mutex_deinit d else (d, 0)
    (some zeroedDesc, p.2)

/-- `ring_buffer_write` wrapper (ring_buffer.c, lines 192-205). -/
def ring_buffer_write (rb : Option RBDesc) (data : Nat) :
    Option RBDesc × Bool :=
  match rb with
  | none => (none, false)
  | some d =>
    match d.ops with
    | none => (some d, false)
    | some ops =>
      let p := ops.write d.core data
      (some { d with core := p.1 }, p.2)

/-- `ring_buffer_read` wrapper (ring_buffer.c, lines 207-225). -/
def ring_buffer_read (rb : Option RBDesc) : Option RBDesc × Option Nat :=
  match rb with
  | none => (none, none)
  | some d =>
    match d.ops with
    | none => (some d, none)
    | some ops =>
      let p := ops.read d.core
      (some { d with core := p.1 }, p.2)

/-- `ring_buffer_write_multi` wrapper (ring_buffer.c, lines 227-250). -/
def ring_buffer_write_multi (rb : Option RBDesc) (data : Option (List Nat))
    (len : Nat) : Option RBDesc × Nat :=
  match rb with
  | none => (none, 0)
  | some d =>
    match data with
    | none => (some d, 0)
    | some ds =>
      if len = 0 then (some d, 0)
      else
        match d.ops with
        | none => (some d, 0)
        | some ops =>
          let p := ops.write_multi d.core ds len
          (some { d with core := p.1 }, p.2)

/-- `ring_buffer_read_multi` wrapper (ring_buffer.c, lines 252-275); the
bytes copied to the out pointer are returned as a list. -/
def ring_buffer_read_multi (rb : Option RBDesc) (len : Nat) :
    Option RBDesc × List Nat :=
  match rb with
  | none => (none, [])
  | some d =>
    if len = 0 then (some d, [])
    else
      match d.ops with
      | none => (some d, [])
      | some ops =>
        let p := ops.read_multi d.core len
        (some { d with core := p.1 }, p.2)

/-- `ring_buffer_available` wrapper (ring_buffer.c, lines 277-290). -/
def ring_buffer_available (rb : Option RBDesc) : Nat :=
  match rb with
  | none => 0
  | some d =>
    match d.ops with
    | none => 0
    | some ops => ops.available d.core

/-- `ring_buffer_free_space` wrapper (ring_buffer.c, lines 292-305). -/
def ring_buffer_free_space (rb : Option RBDesc) : Nat :=
  match rb with
  | none => 0
  | some d =>
    match d.ops with
    | none => 0
    | some ops => ops.free_space d.core

/-- `ring_buffer_is_empty` wrapper (ring_buffer.c, lines 307-320). -/
def ring_buffer_is_empty (rb : Option RBDesc) : Bool :=
  match rb with
  | none => true
  | some d =>
    match d.ops with
    | none => true
    | some ops => ops.is_empty d.core

/-- `ring_buffer_is_full` wrapper (ring_buffer.c, lines 322-335). -/
def ring_buffer_is_full (rb : Option RBDesc) : Bool :=
  match rb with
  | none => false
  | some d =>
    match d.ops with
    | none => false
    | some ops => ops.is_full d.core

/-- `ring_buffer_clear` wrapper (ring_buffer.c, lines 337-350). -/
def ring_buffer_clear (rb : Option RBDesc) : Option RBDesc :=
  match rb with
  | none => none
  | some d =>
    match d.ops with
    | none => some d
    | some ops => some { d with core := ops.clear d.core }

/-- `ring_buffer_errno_t` codes (ring_buffer_errno.h, lines 23-46). -/
def RB_OK : Nat := 0

def RB_ERR_NULL_POINTER : Nat := 1

def RB_ERR_INVALID_SIZE : Nat := 2

def RB_ERR_INVALID_TYPE : Nat := 3

def RB_ERR_INVALID_OPS : Nat := 4

def RB_ERR_BUFFER_FULL : Nat := 20

def RB_ERR_BUFFER_EMPTY : Nat := 21

def RB_ERR_REGISTRY_FULL : Nat := 60

def RB_ERR_ALREADY_REGISTERED : Nat := 61

/-- Process-wide mutable state: `g_ring_buffer_errno`
(ring_buffer_errno.c, line 18, initialised to `RB_OK`) and the custom-ops
registry (ring_buffer.c, lines 35-36, initially empty). -/
structure ProcState where
  errno : Nat
  registry : Registry

/-- `ring_buffer_get_errno` (ring_buffer_errno.c, lines 44-47). -/
def ring_buffer_get_errno (s : ProcState) : Nat := s.errno

/-- `ring_buffer_clear_errno` (ring_buffer_errno.c, lines 57-60). -/
def ring_buffer_clear_errno (s : ProcState) : ProcState :=
  { s with errno := RB_OK }

/-- `ring_buffer_create` as a call on the process state: it reads the
registry; its body contains no assignment to `g_ring_buffer_errno` (the
`RB_SET_ERRNO` macro is defined in ring_buffer_errno.h but never invoked by
any function of the sources), so the errno component passes through. -/
def createCall (s : ProcState) (rb : Option RBDesc)
    (buffer : Option (List Nat)) (size : Nat) (type : Nat) :
    ProcState × Option RBDesc × Bool :=
  (s, ring_buffer_create s.registry rb buffer size type)

/-- `ring_buffer_register_ops` as a call on the process state: it updates the
registry and, like every function of the sources, never writes
`g_ring_buffer_errno`. -/
def registerCall (s : ProcState) (type : Nat) (ops : Option RBOpsTable) :
    ProcState × Bool :=
  let p := ring_buffer_register_ops s.registry type ops
  ({ s with registry := p.1 }, p.2)

/-- A zero-initialised descriptor, as a C `static ring_buffer_t` before any
`create` call: all fields zero/NULL. -/
def freshDesc : RBDesc :=
  { core := { buffer := none, size := 0, head := 0, tail := 0 },
    lock := false, ops := none }

/-- Descriptor after a successful lockfree create over a 4-byte storage. -/
def c6_d1 : Option RBDesc :=
  (ring_buffer_create [] (some freshDesc) (some [0, 0, 0, 0]) 4
    RING_BUFFER_TYPE_LOCKFREE).1

/-- The same descriptor after a second create call that fails
(capacity 1 < 2). -/
def c6_d2 : Option RBDesc :=
  (ring_buffer_create [] c6_d1 (some [9, 9]) 1 RING_BUFFER_TYPE_LOCKFREE).1

/-! ## Sanity checks, helper lemmas, and claim theorems -/

example : (lockfree_write (initRB [0, 0, 0] 3) 7).2 = true := by decide

example : (lockfree_write_multi (initRB [0, 0, 0, 0] 4) [1, 2, 3, 4, 5] 5).2 = 3 := by
  decide

example :
    (lockfree_read_multi (lockfree_write_multi (initRB [0, 0, 0, 0] 4) [1, 2, 3] 3).1
      5).2 = [1, 2, 3] := by decide

example :
    contents (lockfree_write_multi (initRB [0, 0, 0, 0] 4) [1, 2, 3] 3).1 = [1, 2, 3] := by
  decide

theorem copySeg_length (src : List Nat) : ∀ (buf : List Nat) (pos : Nat),
    (copySeg buf pos src).length = buf.length := by
  induction src with
  | nil => intro buf pos; rfl
  | cons b rest ih => intro buf pos; rw [copySeg, ih]; simp

theorem take_set_succ (buf : List Nat) (pos : Nat) (b : Nat)
    (hp : pos < buf.length) :
    (buf.set pos b).take (pos + 1) = buf.take pos ++ [b] := by
  rw [List.set_eq_take_append_cons_drop, if_pos hp,
    List.take_append_eq_append_take, List.take_take, List.length_take]
  have e1 : min (pos + 1) pos = pos := by omega
  have e2 : pos + 1 - min pos buf.length = 1 := by omega
  rw [e1, e2]
  simp

theorem copySeg_eq (src : List Nat) : ∀ (buf : List Nat) (pos : Nat),
    pos + src.length ≤ buf.length →
    copySeg buf pos src = buf.take pos ++ src ++ buf.drop (pos + src.length) := by
  induction src with
  | nil => intro buf pos _; simp [copySeg]
  | cons b rest ih =>
    intro buf pos hle
    simp only [List.length_cons] at hle
    have hp : pos < buf.length := by omega
    rw [copySeg, ih _ _ (by simp only [List.length_set]; omega),
      take_set_succ buf pos b hp, List.drop_set_of_lt _ _ (by omega)]
    have e3 : pos + 1 + rest.length = pos + (rest.length + 1) := by omega
    rw [e3]
    simp

theorem contents_length (rb : RingBuffer) (hwf : WF rb) :
    (contents rb).length = lockfree_available_internal rb := by
  obtain ⟨buf, n, h, t⟩ := rb
  obtain ⟨h2, h16, hh, ht, hlen⟩ := hwf
  dsimp only at h2 h16 hh ht hlen
  simp only [contents, lockfree_available_internal]
  split <;> simp only [List.length_take, List.length_drop, List.length_append,
    hlen] <;> omega

theorem available_le (rb : RingBuffer) (hwf : WF rb) :
    lockfree_available_internal rb ≤ rb.size - 1 := by
  obtain ⟨buf, n, h, t⟩ := rb
  obtain ⟨h2, h16, hh, ht, hlen⟩ := hwf
  dsimp only at h2 h16 hh ht hlen ⊢
  simp only [lockfree_available_internal]
  split <;> omega

theorem is_full_iff (rb : RingBuffer) (hwf : WF rb) :
    lockfree_is_full rb = true ↔
      lockfree_available_internal rb = rb.size - 1 := by
  obtain ⟨buf, n, h, t⟩ := rb
  obtain ⟨h2, h16, hh, ht, hlen⟩ := hwf
  dsimp only at h2 h16 hh ht hlen ⊢
  simp only [lockfree_is_full, lockfree_available_internal, decide_eq_true_eq]
  rcases Nat.lt_or_ge (h + 1) n with hlt | hge
  · rw [Nat.mod_eq_of_lt hlt]
    split <;> omega
  · have he : h + 1 = n := by omega
    rw [he, Nat.mod_self]
    split <;> omega

theorem is_empty_iff (rb : RingBuffer) (hwf : WF rb) :
    lockfree_is_empty rb = true ↔ lockfree_available_internal rb = 0 := by
  obtain ⟨buf, n, h, t⟩ := rb
  obtain ⟨h2, h16, hh, ht, hlen⟩ := hwf
  dsimp only at h2 h16 hh ht hlen ⊢
  simp only [lockfree_is_empty, lockfree_available_internal, decide_eq_true_eq]
  split <;> omega

theorem lockfree_write_full (rb : RingBuffer) (b : Nat)
    (hf : lockfree_is_full rb = true) :
    lockfree_write rb b = (rb, false) := by
  simp only [lockfree_is_full, decide_eq_true_eq] at hf
  simp [lockfree_write, hf]

theorem lockfree_write_not_full (rb : RingBuffer) (b : Nat) (hwf : WF rb)
    (hnf : lockfree_is_full rb = false) :
    (lockfree_write rb b).2 = true ∧
    (lockfree_write rb b).1.size = rb.size ∧
    WF (lockfree_write rb b).1 ∧
    contents (lockfree_write rb b).1 = contents rb ++ [b] := by
  obtain ⟨buf, n, h, t⟩ := rb
  obtain ⟨h2, h16, hh, ht, hlen⟩ := hwf
  dsimp only at h2 h16 hh ht hlen ⊢
  simp only [lockfree_is_full, decide_eq_false_iff_not] at hnf
  simp only [lockfree_write, if_neg hnf]
  refine ⟨trivial, trivial, ?_, ?_⟩
  · exact ⟨h2, h16, Nat.mod_lt _ (by omega), ht, by simp [List.length_set, hlen]⟩
  · have hset : buf.set h b = buf.take h ++ b :: buf.drop (h + 1) := by
      rw [List.set_eq_take_append_cons_drop, if_pos (by omega)]
    have hlth : (buf.take h).length = h := by rw [List.length_take]; omega
    rcases Nat.lt_or_ge h t with hht | hht
    · -- head strictly below tail: single region, no wrap of the new head
      have hmod : (h + 1) % n = h + 1 := Nat.mod_eq_of_lt (by omega)
      have hh1t : h + 1 < t := by
        rcases Nat.lt_or_ge (h + 1) t with hc | hc
        · exact hc
        · exfalso; exact hnf (by omega)
      simp only [contents, hmod]
      rw [if_neg (by omega), if_neg (by omega), hset,
        List.drop_append_eq_append_drop, List.take_append_eq_append_take]
      rw [hlth]
      have e1 : (buf.take h).take (h + 1) = buf.take h :=
        List.take_of_length_le (by omega)
      have e2 : (buf.take h).drop t = [] := List.drop_eq_nil_of_le (by omega)
      have e3 : h + 1 - h = 1 := by omega
      rw [e1, e2, e3]
      have e4 : (b :: buf.drop (h + 1)).drop (t - h) = buf.drop t := by
        obtain ⟨k, hk⟩ : ∃ k, t - h = k + 1 := ⟨t - h - 1, by omega⟩
        rw [hk]
        simp only [List.drop_succ_cons, List.drop_drop]
        congr 1
        omega
      rw [e4]
      simp
    · -- head at or above tail
      rcases Nat.lt_or_ge (h + 1) n with hn | hn
      · -- new head does not wrap
        have hmod : (h + 1) % n = h + 1 := Nat.mod_eq_of_lt hn
        simp only [contents, hmod]
        rw [if_pos (by omega), if_pos (by omega), hset,
          List.drop_append_eq_append_drop, List.take_append_eq_append_take]
        rw [hlth]
        have e0 : t - h = 0 := by omega
        have e1 : ((buf.take h).drop t).length = h - t := by
          rw [List.length_drop, hlth]
        have e2 : ((buf.take h).drop t).take (h + 1 - t) = (buf.take h).drop t :=
          List.take_of_length_le (by rw [e1]; omega)
        have e3 : h + 1 - t - ((buf.take h).drop t).length = 1 := by
          rw [e1]; omega
        rw [e0, e2, e3]
        have e4 : (buf.take h).drop t = (buf.drop t).take (h - t) := by
          rw [List.drop_take]
        rw [e4]
        simp
      · -- new head wraps to 0; since the buffer is not full, tail is nonzero
        have he : h + 1 = n := by omega
        have hmod : (h + 1) % n = 0 := by rw [he, Nat.mod_self]
        have ht0 : 0 < t := by
          rcases Nat.eq_zero_or_pos t with h0 | h0
          · exfalso; exact hnf (by omega)
          · exact h0
        simp only [contents, hmod]
        rw [if_neg (by omega), if_pos (by omega), hset,
          List.drop_append_eq_append_drop]
        rw [hlth]
        have e0 : t - h = 0 := by omega
        have e1 : buf.drop (h + 1) = [] := by
          apply List.drop_eq_nil_of_le; omega
        rw [e0, e1]
        have e4 : (buf.take h).drop t = (buf.drop t).take (h - t) := by
          rw [List.drop_take]
        rw [e4]
        simp

theorem lockfree_read_step (rb : RingBuffer) (hwf : WF rb) :
    (lockfree_read rb).1.size = rb.size ∧
    (lockfree_read rb).1.buffer = rb.buffer ∧
    WF (lockfree_read rb).1 ∧
    contents (lockfree_read rb).1 = (contents rb).drop 1 := by
  obtain ⟨buf, n, h, t⟩ := rb
  obtain ⟨h2, h16, hh, ht, hlen⟩ := hwf
  dsimp only at h2 h16 hh ht hlen ⊢
  by_cases hem : t = h
  · simp only [lockfree_read, if_pos hem]
    refine ⟨trivial, trivial, ⟨h2, h16, hh, ht, hlen⟩, ?_⟩
    subst hem
    simp [contents]
  · simp only [lockfree_read, if_neg hem]
    refine ⟨trivial, trivial, ⟨h2, h16, hh, Nat.mod_lt _ (by omega), hlen⟩, ?_⟩
    rcases Nat.lt_or_ge t h with hth | hth
    · -- tail below head: remaining bytes stay in one region
      have hmod : (t + 1) % n = t + 1 := Nat.mod_eq_of_lt (by omega)
      simp only [contents, hmod]
      rw [if_pos (by omega), if_pos (by omega), List.drop_take, List.drop_drop]
      congr 1
    · have hht : h < t := by omega
      rcases Nat.lt_or_ge (t + 1) n with hn | hn
      · -- tail advances without wrapping
        have hmod : (t + 1) % n = t + 1 := Nat.mod_eq_of_lt hn
        simp only [contents, hmod]
        rw [if_neg (by omega), if_neg (by omega),
          List.drop_append_eq_append_drop, List.drop_drop, List.length_drop]
        have e0 : 1 - (buf.length - t) = 0 := by omega
        rw [e0]
        simp
      · -- tail was on the last slot and wraps to 0
        have he : t + 1 = n := by omega
        have hmod : (t + 1) % n = 0 := by rw [he, Nat.mod_self]
        simp only [contents, hmod]
        rw [if_pos (by omega), if_neg (by omega),
          List.drop_append_eq_append_drop]
        have e1 : (buf.drop t).drop 1 = [] := by
          apply List.drop_eq_nil_of_le; rw [List.length_drop]; omega
        have e2 : 1 - (buf.drop t).length = 0 := by rw [List.length_drop]; omega
        rw [e1, e2]
        simp

theorem lockfree_clear_step (rb : RingBuffer) (hwf : WF rb) :
    WF (lockfree_clear rb) ∧ (lockfree_clear rb).size = rb.size ∧
    contents (lockfree_clear rb) = [] := by
  obtain ⟨buf, n, h, t⟩ := rb
  obtain ⟨h2, h16, hh, ht, hlen⟩ := hwf
  dsimp only at h2 h16 hh ht hlen ⊢
  exact ⟨⟨h2, h16, hh, hh, hlen⟩, rfl, by simp [lockfree_clear, contents]⟩

theorem lockfree_write_multi_eq (rb : RingBuffer) (data : List Nat) (len : Nat) :
    lockfree_write_multi rb data len =
      (if min len (lockfree_free_space_internal rb) = 0 then (rb, 0)
      else if rb.head + min len (lockfree_free_space_internal rb) ≤ rb.size then
        ({ rb with
            buffer := copySeg rb.buffer rb.head
              (data.take (min len (lockfree_free_space_internal rb))),
            head := (rb.head + min len (lockfree_free_space_internal rb)) % rb.size },
          min len (lockfree_free_space_internal rb))
      else
        ({ rb with
            buffer := copySeg
              (copySeg rb.buffer rb.head (data.take (rb.size - rb.head))) 0
              ((data.drop (rb.size - rb.head)).take
                (min len (lockfree_free_space_internal rb) - (rb.size - rb.head))),
            head := min len (lockfree_free_space_internal rb) - (rb.size - rb.head) },
          min len (lockfree_free_space_internal rb))) := by
  unfold lockfree_write_multi
  have hmin : (if len > lockfree_free_space_internal rb then
      lockfree_free_space_internal rb else len)
      = min len (lockfree_free_space_internal rb) := by
    split <;> omega
  by_cases h0 : len = 0
  · subst h0; simp
  · simp only [if_neg h0, hmin]

theorem lockfree_write_multi_spec (rb : RingBuffer) (data : List Nat) (len : Nat)
    (hwf : WF rb) (hdl : len ≤ data.length) :
    (lockfree_write_multi rb data len).2
        = min len (lockfree_free_space_internal rb) ∧
    (lockfree_write_multi rb data len).1.size = rb.size ∧
    WF (lockfree_write_multi rb data len).1 ∧
    contents (lockfree_write_multi rb data len).1
      = contents rb ++ data.take (min len (lockfree_free_space_internal rb)) := by
  rw [lockfree_write_multi_eq]
  obtain ⟨buf, n, h, t⟩ := rb
  obtain ⟨h2, h16, hh, ht, hlen⟩ := hwf
  dsimp only at h2 h16 hh ht hlen ⊢
  by_cases hw0 : min len (lockfree_free_space_internal ⟨buf, n, h, t⟩) = 0
  · rw [if_pos hw0, hw0]
    exact ⟨rfl, rfl, ⟨h2, h16, hh, ht, hlen⟩, by simp⟩
  · rw [if_neg hw0]
    have hw_len : min len (lockfree_free_space_internal ⟨buf, n, h, t⟩)
        ≤ data.length := le_trans (Nat.min_le_left _ _) hdl
    have hXlen : (List.take h buf).length = h := by rw [List.length_take]; omega
    rcases le_or_lt t h with hth | hth
    · -- pending bytes lie in one region: tail ≤ head
      have hfree : lockfree_free_space_internal ⟨buf, n, h, t⟩
          = n - 1 - (h - t) := by
        simp only [lockfree_free_space_internal, lockfree_available_internal]
        rw [if_pos hth]
      have hwle : min len (lockfree_free_space_internal ⟨buf, n, h, t⟩)
          ≤ n - 1 - (h - t) :=
        le_trans (Nat.min_le_right _ _) (le_of_eq hfree)
      set w := min len (lockfree_free_space_internal ⟨buf, n, h, t⟩) with hwdef
      have hlw : (data.take w).length = w := by rw [List.length_take]; omega
      have hcont : contents ⟨buf, n, h, t⟩ = (buf.take h).drop t := by
        simp only [contents]
        rw [if_pos hth, List.drop_take]
      have hCt : ((buf.take h).drop t).length = h - t := by
        rw [List.length_drop, hXlen]
      rcases le_or_lt (h + w) n with hsingle | hwrap
      · -- single contiguous copy
        rw [if_pos hsingle]
        have hbuf : copySeg buf h (data.take w)
            = buf.take h ++ data.take w ++ buf.drop (h + w) := by
          rw [copySeg_eq _ _ _ (by rw [hlw]; omega), hlw]
        refine ⟨rfl, rfl, ?_, ?_⟩
        · refine ⟨h2, h16, ?_, ht, ?_⟩
          · show (h + w) % n < n
            exact Nat.mod_lt _ (by omega)
          · show (copySeg buf h (data.take w)).length = n
            rw [copySeg_length]; exact hlen
        · show contents ⟨copySeg buf h (data.take w), n, (h + w) % n, t⟩
              = contents ⟨buf, n, h, t⟩ ++ data.take w
          rw [hcont]
          rcases Nat.lt_or_ge (h + w) n with hn | hn
          · -- new head does not wrap
            have hmod : (h + w) % n = h + w := Nat.mod_eq_of_lt hn
            simp only [contents, hmod]
            rw [if_pos (by omega), hbuf, List.drop_append_eq_append_drop]
            rw [List.length_append, hXlen, hlw]
            have d1 : t - (h + w) = 0 := by omega
            rw [d1, List.drop_zero]
            rw [List.drop_append_eq_append_drop, hXlen]
            have d0 : t - h = 0 := by omega
            rw [d0, List.drop_zero]
            rw [List.take_append_eq_append_take]
            have hL : (List.drop t (List.take h buf) ++ List.take w data).length
                = h + w - t := by
              rw [List.length_append, hCt, hlw]; omega
            rw [hL]
            have e2 : (List.drop t (List.take h buf) ++ List.take w data).take
                  (h + w - t)
                = List.drop t (List.take h buf) ++ List.take w data :=
              List.take_of_length_le (le_of_eq hL)
            have e3 : h + w - t - (h + w - t) = 0 := by omega
            rw [e2, e3, List.take_zero, List.append_nil]
          · -- the write exactly fills storage; the new head wraps to 0
            have he : h + w = n := by omega
            have hmod : (h + w) % n = 0 := by rw [he, Nat.mod_self]
            have ht0 : 0 < t := by omega
            simp only [contents, hmod]
            rw [if_neg (by omega), hbuf]
            have e0 : buf.drop (h + w) = [] := List.drop_eq_nil_of_le (by omega)
            rw [e0, List.append_nil]
            rw [List.take_zero, List.append_nil]
            rw [List.drop_append_eq_append_drop, hXlen]
            have d0 : t - h = 0 := by omega
            rw [d0, List.drop_zero]
      · -- wrapping write: two copy segments
        rw [if_neg (by omega)]
        have hl1 : (data.take (n - h)).length = n - h := by
          rw [List.length_take]; omega
        have hbuf1 : copySeg buf h (data.take (n - h))
            = buf.take h ++ data.take (n - h) := by
          rw [copySeg_eq _ _ _ (by rw [hl1]; omega), hl1]
          have e : buf.drop (h + (n - h)) = [] := List.drop_eq_nil_of_le (by omega)
          rw [e, List.append_nil]
        have hlen1 : (copySeg buf h (data.take (n - h))).length = n := by
          rw [copySeg_length]; exact hlen
        have hl2 : ((data.drop (n - h)).take (w - (n - h))).length
            = w - (n - h) := by
          rw [List.length_take, List.length_drop]; omega
        have hbuf2 : copySeg (copySeg buf h (data.take (n - h))) 0
              ((data.drop (n - h)).take (w - (n - h)))
            = (data.drop (n - h)).take (w - (n - h))
              ++ (copySeg buf h (data.take (n - h))).drop (w - (n - h)) := by
          rw [copySeg_eq _ _ _ (by rw [hl2, hlen1]; omega), hl2]
          simp
        have hsec_lt_t : w - (n - h) < t := by omega
        refine ⟨rfl, rfl, ?_, ?_⟩
        · refine ⟨h2, h16, ?_, ht, ?_⟩
          · show w - (n - h) < n
            omega
          · show (copySeg (copySeg buf h (data.take (n - h))) 0
                ((data.drop (n - h)).take (w - (n - h)))).length = n
            rw [copySeg_length, copySeg_length]; exact hlen
        · show contents ⟨copySeg (copySeg buf h (data.take (n - h))) 0
                ((data.drop (n - h)).take (w - (n - h))), n, w - (n - h), t⟩
              = contents ⟨buf, n, h, t⟩ ++ data.take w
          rw [hcont]
          simp only [contents]
          rw [if_neg (by omega), hbuf2, hbuf1]
          rw [List.drop_append_eq_append_drop, hl2]
          have e1 : ((data.drop (n - h)).take (w - (n - h))).drop t = [] :=
            List.drop_eq_nil_of_le (by rw [hl2]; omega)
          rw [e1, List.nil_append, List.drop_drop]
          have e2 : w - (n - h) + (t - (w - (n - h))) = t := by omega
          rw [e2]
          rw [List.drop_append_eq_append_drop, hXlen]
          have d0 : t - h = 0 := by omega
          rw [d0, List.drop_zero]
          rw [List.take_append_eq_append_take, hl2]
          have e3 : ((data.drop (n - h)).take (w - (n - h))).take (w - (n - h))
              = (data.drop (n - h)).take (w - (n - h)) :=
            List.take_of_length_le (le_of_eq hl2)
          have e4 : w - (n - h) - (w - (n - h)) = 0 := by omega
          rw [e3, e4, List.take_zero, List.append_nil]
          rw [List.append_assoc, ← List.take_add]
          have e6 : n - h + (w - (n - h)) = w := by omega
          rw [e6]
    · -- pending bytes wrap around storage: head < tail, free region is one block
      have hfree : lockfree_free_space_internal ⟨buf, n, h, t⟩ = t - h - 1 := by
        simp only [lockfree_free_space_internal, lockfree_available_internal]
        rw [if_neg (by omega)]
        omega
      have hwle : min len (lockfree_free_space_internal ⟨buf, n, h, t⟩)
          ≤ t - h - 1 :=
        le_trans (Nat.min_le_right _ _) (le_of_eq hfree)
      set w := min len (lockfree_free_space_internal ⟨buf, n, h, t⟩) with hwdef
      have hlw : (data.take w).length = w := by rw [List.length_take]; omega
      have hsingle : h + w ≤ n := by omega
      rw [if_pos hsingle]
      have hbuf : copySeg buf h (data.take w)
          = buf.take h ++ data.take w ++ buf.drop (h + w) := by
        rw [copySeg_eq _ _ _ (by rw [hlw]; omega), hlw]
      have hmod : (h + w) % n = h + w := Nat.mod_eq_of_lt (by omega)
      have hcont : contents ⟨buf, n, h, t⟩ = buf.drop t ++ buf.take h := by
        simp only [contents]
        rw [if_neg (by omega)]
      refine ⟨rfl, rfl, ?_, ?_⟩
      · refine ⟨h2, h16, ?_, ht, ?_⟩
        · show (h + w) % n < n
          exact Nat.mod_lt _ (by omega)
        · show (copySeg buf h (data.take w)).length = n
          rw [copySeg_length]; exact hlen
      · show contents ⟨copySeg buf h (data.take w), n, (h + w) % n, t⟩
            = contents ⟨buf, n, h, t⟩ ++ data.take w
        rw [hcont]
        simp only [contents, hmod]
        rw [if_neg (by omega), hbuf]
        rw [List.drop_append_eq_append_drop]
        rw [List.length_append, hXlen, hlw]
        rw [List.drop_drop]
        have e3 : h + w + (t - (h + w)) = t := by omega
        rw [e3]
        rw [List.drop_append_eq_append_drop, hXlen]
        have e1 : (buf.take h).drop t = [] :=
          List.drop_eq_nil_of_le (by rw [hXlen]; omega)
        rw [e1, List.nil_append]
        have e2 : (data.take w).drop (t - h) = [] :=
          List.drop_eq_nil_of_le (by rw [hlw]; omega)
        rw [e2, List.nil_append]
        rw [List.take_append_eq_append_take]
        have hL2 : (buf.take h ++ data.take w).length = h + w := by
          rw [List.length_append, hXlen, hlw]
        rw [hL2]
        have e4 : (buf.take h ++ data.take w).take (h + w)
            = buf.take h ++ data.take w :=
          List.take_of_length_le (le_of_eq hL2)
        have e5 : h + w - (h + w) = 0 := by omega
        rw [e4, e5, List.take_zero, List.append_nil]
        simp [List.append_assoc]

theorem lockfree_read_multi_eq (rb : RingBuffer) (len : Nat) :
    lockfree_read_multi rb len =
      (if min len (lockfree_available_internal rb) = 0 then (rb, [])
      else if rb.tail + min len (lockfree_available_internal rb) ≤ rb.size then
        ({ rb with
            tail := (rb.tail + min len (lockfree_available_internal rb)) % rb.size },
          (rb.buffer.drop rb.tail).take (min len (lockfree_available_internal rb)))
      else
        ({ rb with
            tail := min len (lockfree_available_internal rb) - (rb.size - rb.tail) },
          (rb.buffer.drop rb.tail).take (rb.size - rb.tail)
            ++ rb.buffer.take
              (min len (lockfree_available_internal rb) - (rb.size - rb.tail)))) := by
  unfold lockfree_read_multi
  have hmin : (if len > lockfree_available_internal rb then
      lockfree_available_internal rb else len)
      = min len (lockfree_available_internal rb) := by
    split <;> omega
  by_cases h0 : len = 0
  · subst h0; simp
  · simp only [if_neg h0, hmin]

theorem lockfree_read_multi_spec (rb : RingBuffer) (len : Nat) (hwf : WF rb) :
    (lockfree_read_multi rb len).2
        = (contents rb).take (min len (lockfree_available_internal rb)) ∧
    (lockfree_read_multi rb len).2.length
        = min len (lockfree_available_internal rb) ∧
    (lockfree_read_multi rb len).1.size = rb.size ∧
    (lockfree_read_multi rb len).1.buffer = rb.buffer ∧
    WF (lockfree_read_multi rb len).1 ∧
    contents (lockfree_read_multi rb len).1
      = (contents rb).drop (min len (lockfree_available_internal rb)) := by
  rw [lockfree_read_multi_eq]
  obtain ⟨buf, n, h, t⟩ := rb
  obtain ⟨h2, h16, hh, ht, hlen⟩ := hwf
  dsimp only at h2 h16 hh ht hlen ⊢
  by_cases hr0 : min len (lockfree_available_internal ⟨buf, n, h, t⟩) = 0
  · rw [if_pos hr0, hr0]
    exact ⟨by simp, by simp, rfl, rfl, ⟨h2, h16, hh, ht, hlen⟩, by simp⟩
  · rw [if_neg hr0]
    have hDlen : (buf.drop t).length = n - t := by rw [List.length_drop, hlen]
    rcases le_or_lt t h with hth | hth
    · -- pending bytes in one region: tail ≤ head, the read never wraps
      have havail : lockfree_available_internal ⟨buf, n, h, t⟩ = h - t := by
        simp only [lockfree_available_internal]
        rw [if_pos hth]
      have hrle : min len (lockfree_available_internal ⟨buf, n, h, t⟩) ≤ h - t :=
        le_trans (Nat.min_le_right _ _) (le_of_eq havail)
      set r := min len (lockfree_available_internal ⟨buf, n, h, t⟩) with hrdef
      have hcont : contents ⟨buf, n, h, t⟩ = (buf.drop t).take (h - t) := by
        simp only [contents]
        rw [if_pos hth]
      have hsingle : t + r ≤ n := by omega
      rw [if_pos hsingle]
      have hmod : (t + r) % n = t + r := Nat.mod_eq_of_lt (by omega)
      refine ⟨?_, ?_, rfl, rfl, ?_, ?_⟩
      · show (buf.drop t).take r = (contents ⟨buf, n, h, t⟩).take r
        rw [hcont, List.take_take]
        have e : min r (h - t) = r := by omega
        rw [e]
      · show ((buf.drop t).take r).length = r
        rw [List.length_take, hDlen]; omega
      · refine ⟨h2, h16, hh, ?_, hlen⟩
        show (t + r) % n < n
        exact Nat.mod_lt _ (by omega)
      · show contents ⟨buf, n, h, (t + r) % n⟩
            = (contents ⟨buf, n, h, t⟩).drop r
        rw [hcont]
        simp only [contents, hmod]
        rw [if_pos (by omega), List.drop_take, List.drop_drop]
        congr 1
        omega
    · -- pending bytes wrap: head < tail
      have havail : lockfree_available_internal ⟨buf, n, h, t⟩ = n - t + h := by
        simp only [lockfree_available_internal]
        rw [if_neg (by omega)]
      have hrle : min len (lockfree_available_internal ⟨buf, n, h, t⟩)
          ≤ n - t + h :=
        le_trans (Nat.min_le_right _ _) (le_of_eq havail)
      set r := min len (lockfree_available_internal ⟨buf, n, h, t⟩) with hrdef
      have hcont : contents ⟨buf, n, h, t⟩ = buf.drop t ++ buf.take h := by
        simp only [contents]
        rw [if_neg (by omega)]
      rcases le_or_lt (t + r) n with hsingle | hwrap
      · -- the read stays in the tail-side region
        rw [if_pos hsingle]
        refine ⟨?_, ?_, rfl, rfl, ?_, ?_⟩
        · show (buf.drop t).take r = (contents ⟨buf, n, h, t⟩).take r
          rw [hcont, List.take_append_eq_append_take, hDlen]
          have e1 : r - (n - t) = 0 := by omega
          rw [e1, List.take_zero, List.append_nil]
        · show ((buf.drop t).take r).length = r
          rw [List.length_take, hDlen]; omega
        · refine ⟨h2, h16, hh, ?_, hlen⟩
          show (t + r) % n < n
          exact Nat.mod_lt _ (by omega)
        · show contents ⟨buf, n, h, (t + r) % n⟩
              = (contents ⟨buf, n, h, t⟩).drop r
          rw [hcont]
          rcases Nat.lt_or_ge (t + r) n with hn | hn
          · have hmod : (t + r) % n = t + r := Nat.mod_eq_of_lt hn
            simp only [contents, hmod]
            rw [if_neg (by omega), List.drop_append_eq_append_drop, hDlen]
            have e1 : r - (n - t) = 0 := by omega
            rw [e1, List.drop_zero, List.drop_drop]
          · have he : t + r = n := by omega
            have hmod : (t + r) % n = 0 := by rw [he, Nat.mod_self]
            simp only [contents, hmod]
            rw [if_pos (by omega), List.drop_append_eq_append_drop, hDlen]
            have e1 : (buf.drop t).drop r = [] := by
              apply List.drop_eq_nil_of_le; rw [hDlen]; omega
            have e2 : r - (n - t) = 0 := by omega
            rw [e1, e2, List.drop_zero, List.nil_append]
            simp
      · -- the read wraps past the end of storage
        rw [if_neg (by omega)]
        have hsec_le : r - (n - t) ≤ h := by omega
        refine ⟨?_, ?_, rfl, rfl, ?_, ?_⟩
        · show (buf.drop t).take (n - t) ++ buf.take (r - (n - t))
              = (contents ⟨buf, n, h, t⟩).take r
          rw [hcont, List.take_append_eq_append_take, hDlen]
          have e1 : (buf.drop t).take r = buf.drop t :=
            List.take_of_length_le (by rw [hDlen]; omega)
          have e2 : (buf.drop t).take (n - t) = buf.drop t :=
            List.take_of_length_le (le_of_eq hDlen)
          rw [e1, e2, List.take_take]
          have e3 : min (r - (n - t)) h = r - (n - t) := by omega
          rw [e3]
        · show ((buf.drop t).take (n - t) ++ buf.take (r - (n - t))).length = r
          rw [List.length_append, List.length_take, List.length_take, hDlen,
            hlen]
          omega
        · refine ⟨h2, h16, hh, ?_, hlen⟩
          show r - (n - t) < n
          omega
        · show contents ⟨buf, n, h, r - (n - t)⟩
              = (contents ⟨buf, n, h, t⟩).drop r
          rw [hcont]
          simp only [contents]
          rw [if_pos (by omega), List.drop_append_eq_append_drop, hDlen]
          have e1 : (buf.drop t).drop r = [] := by
            apply List.drop_eq_nil_of_le; rw [hDlen]; omega
          rw [e1, List.nil_append, List.drop_take]

theorem applyOp_step (rb : RingBuffer) (op : RBOp) (hwf : WF rb) (hop : opWF op) :
    WF (applyOp rb op) ∧ (applyOp rb op).size = rb.size ∧
    contents (applyOp rb op) = modelStep rb.size (contents rb) op := by
  cases op with
  | write b =>
    have hlenq := contents_length rb hwf
    by_cases hf : lockfree_is_full rb = true
    · have heq : (lockfree_write rb b).1 = rb := by
        rw [lockfree_write_full rb b hf]
      have hfull := (is_full_iff rb hwf).1 hf
      refine ⟨?_, ?_, ?_⟩
      · simpa only [applyOp, heq] using hwf
      · simp [applyOp, heq]
      · simp only [applyOp, heq, modelStep]
        rw [if_pos (by omega)]
    · have hnf : lockfree_is_full rb = false := by
        cases hb : lockfree_is_full rb
        · rfl
        · exact absurd hb hf
      obtain ⟨hret, hsize, hwf', hcont⟩ := lockfree_write_not_full rb b hwf hnf
      have hnfull : ¬ lockfree_available_internal rb = rb.size - 1 := fun hc =>
        hf ((is_full_iff rb hwf).2 hc)
      refine ⟨hwf', hsize, ?_⟩
      simp only [applyOp, modelStep]
      rw [if_neg (by omega), hcont]
  | read =>
    obtain ⟨hsize, hbuf, hwf', hcont⟩ := lockfree_read_step rb hwf
    exact ⟨hwf', hsize, hcont⟩
  | writeMulti data len =>
    obtain ⟨hret, hsize, hwf', hcont⟩ :=
      lockfree_write_multi_spec rb data len hwf hop
    refine ⟨hwf', hsize, ?_⟩
    have hq := contents_length rb hwf
    have hfree : rb.size - 1 - (contents rb).length
        = lockfree_free_space_internal rb := by
      rw [hq]; rfl
    simp only [applyOp, modelStep]
    rw [hfree, hcont]
  | readMulti len =>
    obtain ⟨hbytes, hblen, hsize, hbuf, hwf', hcont⟩ :=
      lockfree_read_multi_spec rb len hwf
    refine ⟨hwf', hsize, ?_⟩
    have hq := contents_length rb hwf
    simp only [applyOp, modelStep]
    rw [hcont, hq]
  | clear =>
    obtain ⟨hwf', hsize, hcont⟩ := lockfree_clear_step rb hwf
    exact ⟨hwf', hsize, hcont⟩

theorem runOps_sim (ops : List RBOp) : ∀ (rb : RingBuffer), WF rb →
    (∀ op ∈ ops, opWF op) →
    WF (runOps rb ops) ∧ (runOps rb ops).size = rb.size ∧
    contents (runOps rb ops) = modelRun rb.size (contents rb) ops := by
  induction ops with
  | nil => intro rb hwf _; exact ⟨hwf, rfl, rfl⟩
  | cons op rest ih =>
    intro rb hwf hops
    obtain ⟨hwf1, hsize1, hcont1⟩ := applyOp_step rb op hwf (hops op (by simp))
    obtain ⟨hwf2, hsize2, hcont2⟩ :=
      ih (applyOp rb op) hwf1 (fun o ho => hops o (by simp [ho]))
    refine ⟨hwf2, ?_, ?_⟩
    · simp only [runOps]
      rw [hsize2, hsize1]
    · simp only [runOps, modelRun]
      rw [hcont2, hsize1, hcont1]

theorem reachable_WF (rb : RingBuffer) (hr : Reachable rb) : WF rb := by
  obtain ⟨storage, size, ops, h2, h16, hlen, hops, heq⟩ := hr
  have hwf0 : WF (initRB storage size) :=
    ⟨h2, h16, show 0 < size by omega, show 0 < size by omega, hlen⟩
  rw [heq]
  exact (runOps_sim ops _ hwf0 hops).1

theorem runOps_contents (storage : List Nat) (size : Nat) (ops : List RBOp)
    (h2 : 2 ≤ size) (h16 : size ≤ 65535) (hlen : storage.length = size)
    (hops : ∀ op ∈ ops, opWF op) :
    contents (runOps (initRB storage size) ops) = modelRun size [] ops ∧
    lockfree_available_internal (runOps (initRB storage size) ops)
      = (modelRun size [] ops).length := by
  have hwf0 : WF (initRB storage size) :=
    ⟨h2, h16, show 0 < size by omega, show 0 < size by omega, hlen⟩
  obtain ⟨hwf, hsize, hcont⟩ := runOps_sim ops (initRB storage size) hwf0 hops
  have hc0 : contents (initRB storage size) = [] := rfl
  have hcap : (initRB storage size).size = size := rfl
  rw [hc0, hcap] at hcont
  exact ⟨hcont, by rw [← contents_length _ hwf, hcont]⟩

/-- C1: for every reachable buffer state, `write_multi(data, len)` returns
`min(len, free_space before the call)`, and exactly that prefix of `data` is
appended to the pending bytes — no byte beyond that count is stored. -/
theorem claim_write_multi_count (rb : RingBuffer) (data : List Nat) (len : Nat)
    (hr : Reachable rb) (hlen : len ≤ data.length) :
    (lockfree_write_multi rb data len).2
        = min len (lockfree_free_space_internal rb) ∧
    contents (lockfree_write_multi rb data len).1
      = contents rb ++ data.take (min len (lockfree_free_space_internal rb)) := by
  have hwf := reachable_WF rb hr
  obtain ⟨hc1, _, _, hc4⟩ := lockfree_write_multi_spec rb data len hwf hlen
  exact ⟨hc1, hc4⟩

theorem claim_write_multi_count_witness :
    Reachable (initRB [0, 0, 0, 0] 4) ∧ (2 : Nat) ≤ [7, 8].length ∧
    ((lockfree_write_multi (initRB [0, 0, 0, 0] 4) [7, 8] 2).2
        = min 2 (lockfree_free_space_internal (initRB [0, 0, 0, 0] 4)) ∧
      contents (lockfree_write_multi (initRB [0, 0, 0, 0] 4) [7, 8] 2).1
        = contents (initRB [0, 0, 0, 0] 4)
          ++ [7, 8].take
              (min 2 (lockfree_free_space_internal (initRB [0, 0, 0, 0] 4)))) :=
  have hreach : Reachable (initRB [0, 0, 0, 0] 4) :=
    ⟨[0, 0, 0, 0], 4, [], by decide, by decide, by decide, by simp, rfl⟩
  ⟨hreach, by decide,
    claim_write_multi_count (initRB [0, 0, 0, 0] 4) [7, 8] 2 hreach (by decide)⟩

/-- C2: after any operation sequence from a fresh buffer, `read_multi(max)`
returns `min(max, available)` bytes, and those bytes are the oldest pending
bytes — `modelRun size [] ops` is, by construction, exactly the sequence of
bytes accepted by writes and not yet consumed by reads, in write order. -/
theorem claim_read_multi_fifo (storage : List Nat) (size : Nat)
    (ops : List RBOp) (max : Nat) (h2 : 2 ≤ size) (h16 : size ≤ 65535)
    (hlen : storage.length = size) (hops : ∀ op ∈ ops, opWF op) :
    (lockfree_read_multi (runOps (initRB storage size) ops) max).2.length
        = min max
            (lockfree_available_internal (runOps (initRB storage size) ops)) ∧
    (lockfree_read_multi (runOps (initRB storage size) ops) max).2
        = (modelRun size [] ops).take
            (min max
              (lockfree_available_internal (runOps (initRB storage size) ops))) := by
  have hwf0 : WF (initRB storage size) :=
    ⟨h2, h16, show 0 < size by omega, show 0 < size by omega, hlen⟩
  obtain ⟨hwf, hsize, hcont⟩ := runOps_sim ops (initRB storage size) hwf0 hops
  have hc0 : contents (initRB storage size) = [] := rfl
  have hcap : (initRB storage size).size = size := rfl
  rw [hc0, hcap] at hcont
  obtain ⟨hbytes, hblen, _, _, _, _⟩ :=
    lockfree_read_multi_spec (runOps (initRB storage size) ops) max hwf
  exact ⟨hblen, by rw [hbytes, hcont]⟩

theorem claim_read_multi_fifo_witness :
    (2 : Nat) ≤ 4 ∧ (4 : Nat) ≤ 65535 ∧ [0, 0, 0, 0].length = 4 ∧
    (∀ op ∈ [RBOp.writeMulti [5, 6, 7] 3], opWF op) ∧
    ((lockfree_read_multi
        (runOps (initRB [0, 0, 0, 0] 4) [RBOp.writeMulti [5, 6, 7] 3]) 2).2.length
        = min 2 (lockfree_available_internal
            (runOps (initRB [0, 0, 0, 0] 4) [RBOp.writeMulti [5, 6, 7] 3])) ∧
      (lockfree_read_multi
        (runOps (initRB [0, 0, 0, 0] 4) [RBOp.writeMulti [5, 6, 7] 3]) 2).2
        = (modelRun 4 [] [RBOp.writeMulti [5, 6, 7] 3]).take
            (min 2 (lockfree_available_internal
              (runOps (initRB [0, 0, 0, 0] 4) [RBOp.writeMulti [5, 6, 7] 3])))) :=
  have hops : ∀ op ∈ [RBOp.writeMulti [5, 6, 7] 3], opWF op := by
    intro op hop
    simp only [List.mem_singleton] at hop
    subst hop
    show (3 : Nat) ≤ 3
    decide
  ⟨by decide, by decide, by decide, hops,
    claim_read_multi_fifo [0, 0, 0, 0] 4 [RBOp.writeMulti [5, 6, 7] 3] 2
      (by decide) (by decide) (by decide) hops⟩

/-- C4: every reachable state keeps both indices inside `[0, capacity)` and
never accounts more than `capacity - 1` pending bytes. -/
theorem claim_indices_invariant (rb : RingBuffer) (hr : Reachable rb) :
    rb.head < rb.size ∧ rb.tail < rb.size ∧
    lockfree_available_internal rb ≤ rb.size - 1 := by
  have hwf := reachable_WF rb hr
  exact ⟨hwf.2.2.1, hwf.2.2.2.1, available_le rb hwf⟩

theorem claim_indices_invariant_witness :
    Reachable (runOps (initRB [0, 0] 2) [RBOp.write 9, RBOp.read, RBOp.clear]) ∧
    ((runOps (initRB [0, 0] 2) [RBOp.write 9, RBOp.read, RBOp.clear]).head
        < (runOps (initRB [0, 0] 2) [RBOp.write 9, RBOp.read, RBOp.clear]).size ∧
      (runOps (initRB [0, 0] 2) [RBOp.write 9, RBOp.read, RBOp.clear]).tail
        < (runOps (initRB [0, 0] 2) [RBOp.write 9, RBOp.read, RBOp.clear]).size ∧
      lockfree_available_internal
          (runOps (initRB [0, 0] 2) [RBOp.write 9, RBOp.read, RBOp.clear])
        ≤ (runOps (initRB [0, 0] 2) [RBOp.write 9, RBOp.read, RBOp.clear]).size
          - 1) :=
  have hreach :
      Reachable (runOps (initRB [0, 0] 2) [RBOp.write 9, RBOp.read, RBOp.clear]) :=
    ⟨[0, 0], 2, [RBOp.write 9, RBOp.read, RBOp.clear], by decide, by decide,
      by decide, by intro op hop; fin_cases hop <;> trivial, rfl⟩
  ⟨hreach, claim_indices_invariant _ hreach⟩

/-- C5: in a reachable full state (`(head+1) % capacity == tail`),
`write(byte)` fails and changes nothing; in any other reachable state it
stores the byte at index `head`, advances `head` by one modulo the capacity,
and reports success. -/
theorem claim_write_single (rb : RingBuffer) (b : Nat) (_hr : Reachable rb) :
    (lockfree_is_full rb = true → lockfree_write rb b = (rb, false)) ∧
    (lockfree_is_full rb = false →
      (lockfree_write rb b).2 = true ∧
      (lockfree_write rb b).1.buffer = rb.buffer.set rb.head b ∧
      (lockfree_write rb b).1.head = (rb.head + 1) % rb.size ∧
      (lockfree_write rb b).1.tail = rb.tail) := by
  refine ⟨fun hf => lockfree_write_full rb b hf, fun hnf => ?_⟩
  simp only [lockfree_is_full, decide_eq_false_iff_not] at hnf
  simp [lockfree_write, if_neg hnf]

theorem claim_write_single_witness :
    Reachable (initRB [0, 0, 0] 3) ∧
    ((lockfree_is_full (initRB [0, 0, 0] 3) = true →
        lockfree_write (initRB [0, 0, 0] 3) 42 = (initRB [0, 0, 0] 3, false)) ∧
      (lockfree_is_full (initRB [0, 0, 0] 3) = false →
        (lockfree_write (initRB [0, 0, 0] 3) 42).2 = true ∧
        (lockfree_write (initRB [0, 0, 0] 3) 42).1.buffer
          = (initRB [0, 0, 0] 3).buffer.set (initRB [0, 0, 0] 3).head 42 ∧
        (lockfree_write (initRB [0, 0, 0] 3) 42).1.head
          = ((initRB [0, 0, 0] 3).head + 1) % (initRB [0, 0, 0] 3).size ∧
        (lockfree_write (initRB [0, 0, 0] 3) 42).1.tail
          = (initRB [0, 0, 0] 3).tail)) :=
  have hreach : Reachable (initRB [0, 0, 0] 3) :=
    ⟨[0, 0, 0], 3, [], by decide, by decide, by decide, by simp, rfl⟩
  ⟨hreach, claim_write_single (initRB [0, 0, 0] 3) 42 hreach⟩

/-- C9: `clear()` only moves `tail` onto `head`: afterwards the buffer reads
as empty with zero available bytes, while `head`, the capacity and every byte
of the underlying storage are untouched. -/
theorem claim_clear_frame (rb : RingBuffer) :
    (lockfree_clear rb).tail = rb.head ∧
    lockfree_is_empty (lockfree_clear rb) = true ∧
    lockfree_available_internal (lockfree_clear rb) = 0 ∧
    (lockfree_clear rb).head = rb.head ∧
    (lockfree_clear rb).size = rb.size ∧
    (lockfree_clear rb).buffer = rb.buffer := by
  refine ⟨rfl, ?_, ?_, rfl, rfl, rfl⟩
  · simp [lockfree_is_empty, lockfree_clear]
  · simp [lockfree_available_internal, lockfree_clear]

/-- C3: the wraparound scenario on a capacity-8 buffer (usable 7): the seven
writes 0..6 all succeed and fill the buffer; reading 3 bytes yields 0,1,2 and
leaves 4 available; the three further single-byte writes find 3 free slots
before and 0 after and all succeed; a full drain then returns 3,4,5,6
followed by the three new bytes, in order. -/
theorem claim_wrap_around_scenario :
    wrapS1.2 = true ∧ lockfree_is_full wrapS1.1 = true ∧
    wrapS2.2 = [some 0, some 1, some 2] ∧
    lockfree_available_internal wrapS2.1 = 4 ∧
    lockfree_free_space_internal wrapS2.1 = 3 ∧
    wrapS3.2 = true ∧ lockfree_free_space_internal wrapS3.1 = 0 ∧
    (lockfree_read_multi wrapS3.1 7).2 = [3, 4, 5, 6, 100, 101, 102] := by
  decide

theorem find_custom_ops_append (reg : Registry) (type : Nat) (o : RBOpsTable)
    (h : find_custom_ops reg type = none) :
    find_custom_ops (reg ++ [(type, o)]) type = some o := by
  induction reg with
  | nil => simp [find_custom_ops]
  | cons e rest ih =>
    obtain ⟨tag, ops⟩ := e
    by_cases he : tag = type
    · simp [find_custom_ops, he] at h
    · simp only [List.cons_append, find_custom_ops, if_neg he] at h ⊢
      exact ih h

/-- C8: `register_strategy` fails on an absent operation set, a tag below the
custom range, a full registry, or a duplicate tag (so the second registration
of a tag fails); otherwise it appends the entry, the new tag is found by
lookup, and a later `create` with that tag succeeds and binds the registered
operation set. -/
theorem claim_register_ops (reg : Registry) (type : Nat)
    (ops : Option RBOpsTable) :
    (ops = none → ring_buffer_register_ops reg type ops = (reg, false)) ∧
    (type < RING_BUFFER_TYPE_CUSTOM_BASE →
      ring_buffer_register_ops reg type ops = (reg, false)) ∧
    (RING_BUFFER_MAX_CUSTOM_OPS ≤ reg.length →
      ring_buffer_register_ops reg type ops = (reg, false)) ∧
    ((find_custom_ops reg type).isSome →
      ring_buffer_register_ops reg type ops = (reg, false)) ∧
    (∀ o, ops = some o → RING_BUFFER_TYPE_CUSTOM_BASE ≤ type →
      reg.length < RING_BUFFER_MAX_CUSTOM_OPS →
      find_custom_ops reg type = none →
      ring_buffer_register_ops reg type ops = (reg ++ [(type, o)], true) ∧
      find_custom_ops (reg ++ [(type, o)]) type = some o ∧
      (ring_buffer_register_ops (reg ++ [(type, o)]) type (some o)).2
          = false ∧
      (∀ (buf : List Nat) (size : Nat) (d : RBDesc), 2 ≤ size →
        ring_buffer_create (reg ++ [(type, o)]) (some d) (some buf) size type
          = (some { core := { buffer := some buf, size := size, head := 0,
                              tail := 0 },
                    lock := false, ops := some o }, true))) := by
  refine ⟨?_, ?_, ?_, ?_, ?_⟩
  · intro h; subst h; rfl
  · intro h3
    cases ops with
    | none => rfl
    | some o => simp [ring_buffer_register_ops, if_pos h3]
  · intro hfull
    cases ops with
    | none => rfl
    | some o =>
      by_cases h3 : type < RING_BUFFER_TYPE_CUSTOM_BASE
      · simp [ring_buffer_register_ops, if_pos h3]
      · simp [ring_buffer_register_ops, if_neg h3, if_pos hfull]
  · intro hdup
    cases ops with
    | none => rfl
    | some o =>
      by_cases h3 : type < RING_BUFFER_TYPE_CUSTOM_BASE
      · simp [ring_buffer_register_ops, if_pos h3]
      · by_cases hfull : RING_BUFFER_MAX_CUSTOM_OPS ≤ reg.length
        · simp [ring_buffer_register_ops, if_neg h3, if_pos hfull]
        · simp [ring_buffer_register_ops, if_neg h3, if_neg hfull, hdup]
  · intro o hops h34 hroom hnone
    subst hops
    have hreg : ring_buffer_register_ops reg type (some o)
        = (reg ++ [(type, o)], true) := by
      simp [ring_buffer_register_ops, if_neg (by omega : ¬ type
        < RING_BUFFER_TYPE_CUSTOM_BASE),
        if_neg (by omega : ¬ RING_BUFFER_MAX_CUSTOM_OPS ≤ reg.length), hnone]
    have hfind := find_custom_ops_append reg type o hnone
    refine ⟨hreg, hfind, ?_, ?_⟩
    · by_cases hfull : RING_BUFFER_MAX_CUSTOM_OPS ≤ reg.length + 1
      · simp [ring_buffer_register_ops, if_neg (by omega : ¬ type
          < RING_BUFFER_TYPE_CUSTOM_BASE), hfull]
      · simp [ring_buffer_register_ops, if_neg (by omega : ¬ type
          < RING_BUFFER_TYPE_CUSTOM_BASE), hfull, hfind]
    · intro buf size d hsize
      have hne0 : ¬ (type = RING_BUFFER_TYPE_LOCKFREE) := by
        simp only [RING_BUFFER_TYPE_LOCKFREE]
        simp only [RING_BUFFER_TYPE_CUSTOM_BASE] at h34
        omega
      simp [ring_buffer_create, ring_buffer_init_common,
        if_neg (by simp only [RING_BUFFER_MIN_SIZE]; omega : ¬ size
          < RING_BUFFER_MIN_SIZE),
        hne0, if_pos h34, hfind]

theorem claim_register_ops_witness :
    ring_buffer_register_ops [] 5 (some ring_buffer_lockfree_ops)
        = ([(5, ring_buffer_lockfree_ops)], true) ∧
    find_custom_ops [(5, ring_buffer_lockfree_ops)] 5
        = some ring_buffer_lockfree_ops ∧
    (ring_buffer_register_ops [(5, ring_buffer_lockfree_ops)] 5
        (some ring_buffer_lockfree_ops)).2 = false :=
  have hmain := (claim_register_ops [] 5 (some ring_buffer_lockfree_ops)).2.2.2.2
    ring_buffer_lockfree_ops rfl (by decide) (by decide) rfl
  ⟨hmain.1, hmain.2.1, hmain.2.2.1⟩

/-- C6 counterexample: `create(desc, storage, 1, Lockfree)` does fail, but on
a descriptor that had been successfully created before, the failing call
leaves the previously bound operation set in place (the failure path of
`ring_buffer_init_common` returns before clearing any field), so a
subsequent `write` on the descriptor succeeds and stores a byte — the
descriptor is not left unusable as the claim requires. -/
theorem claim_create_failure_counterexample :
    (ring_buffer_create [] c6_d1 (some [9, 9]) 1 RING_BUFFER_TYPE_LOCKFREE).2
        = false ∧
    c6_d2 = c6_d1 ∧
    (∃ d, c6_d2 = some d ∧ d.ops.isSome = true) ∧
    (ring_buffer_write c6_d2 42).2 = true ∧
    (∃ d, (ring_buffer_write c6_d2 42).1 = some d ∧ d.core.head = 1 ∧
      d.core.buffer = some [42, 0, 0, 0]) :=
  ⟨rfl, rfl, ⟨_, rfl, rfl⟩, rfl, ⟨_, rfl, rfl, rfl⟩⟩

theorem ops_none_safe (d : RBDesc) (hops : d.ops = none) :
    (∀ b, ring_buffer_write (some d) b = (some d, false)) ∧
    ring_buffer_read (some d) = (some d, none) ∧
    (∀ ds len, ring_buffer_write_multi (some d) ds len = (some d, 0)) ∧
    (∀ len, ring_buffer_read_multi (some d) len = (some d, [])) ∧
    ring_buffer_available (some d) = 0 ∧
    ring_buffer_free_space (some d) = 0 ∧
    ring_buffer_is_empty (some d) = true ∧
    ring_buffer_is_full (some d) = false ∧
    ring_buffer_clear (some d) = some d := by
  refine ⟨?_, ?_, ?_, ?_, ?_, ?_, ?_, ?_, ?_⟩
  · intro b; simp [ring_buffer_write, hops]
  · simp [ring_buffer_read, hops]
  · intro ds len
    cases ds with
    | none => simp [ring_buffer_write_multi]
    | some l =>
      by_cases hl : len = 0 <;> simp [ring_buffer_write_multi, hops, hl]
  · intro len
    by_cases hl : len = 0 <;> simp [ring_buffer_read_multi, hops, hl]
  · simp [ring_buffer_available, hops]
  · simp [ring_buffer_free_space, hops]
  · simp [ring_buffer_is_empty, hops]
  · simp [ring_buffer_is_full, hops]
  · simp [ring_buffer_clear, hops]

/-- C6 (amended): `create` fails whenever the descriptor or storage reference
is absent or the capacity is below 2, and such a failure leaves the
descriptor exactly as it was before the call; consequently a descriptor whose
operation-set reference was unbound before the call (a fresh or destroyed
descriptor) stays unbound, and on it every subsequent operation fails safely,
moving no data.  (The counterexample shows the original claim's stronger
"operation-set reference is unbound after any such failure" is false for a
descriptor that had been created successfully earlier.) -/
theorem claim_create_failure_amended (reg : Registry) (rb : Option RBDesc)
    (buffer : Option (List Nat)) (size type : Nat)
    (hfail : rb = none ∨ buffer = none ∨ size < RING_BUFFER_MIN_SIZE) :
    (ring_buffer_create reg rb buffer size type).2 = false ∧
    (ring_buffer_create reg rb buffer size type).1 = rb ∧
    (∀ d, rb = some d → d.ops = none →
      (∀ b, ring_buffer_write rb b = (rb, false)) ∧
      ring_buffer_read rb = (rb, none) ∧
      (∀ ds len, ring_buffer_write_multi rb ds len = (rb, 0)) ∧
      (∀ len, ring_buffer_read_multi rb len = (rb, [])) ∧
      ring_buffer_available rb = 0 ∧
      ring_buffer_free_space rb = 0 ∧
      ring_buffer_is_empty rb = true ∧
      ring_buffer_is_full rb = false ∧
      ring_buffer_clear rb = rb) := by
  have hsafe : ∀ d, rb = some d → d.ops = none →
      (∀ b, ring_buffer_write rb b = (rb, false)) ∧
      ring_buffer_read rb = (rb, none) ∧
      (∀ ds len, ring_buffer_write_multi rb ds len = (rb, 0)) ∧
      (∀ len, ring_buffer_read_multi rb len = (rb, [])) ∧
      ring_buffer_available rb = 0 ∧
      ring_buffer_free_space rb = 0 ∧
      ring_buffer_is_empty rb = true ∧
      ring_buffer_is_full rb = false ∧
      ring_buffer_clear rb = rb := by
    intro d hd hops
    subst hd
    exact ops_none_safe d hops
  rcases hfail with h | h | h
  · subst h
    exact ⟨rfl, rfl, hsafe⟩
  · subst h
    cases rb with
    | none => exact ⟨rfl, rfl, hsafe⟩
    | some d => exact ⟨rfl, rfl, hsafe⟩
  · cases rb with
    | none => exact ⟨rfl, rfl, hsafe⟩
    | some d =>
      cases buffer with
      | none => exact ⟨rfl, rfl, hsafe⟩
      | some buf =>
        have hcreate : ring_buffer_create reg (some d) (some buf) size type
            = (some d, false) := by
          simp [ring_buffer_create, ring_buffer_init_common, h]
        exact ⟨by rw [hcreate], by rw [hcreate], hsafe⟩

theorem claim_create_failure_amended_witness :
    ((some freshDesc : Option RBDesc) = none ∨
      (some [9, 9] : Option (List Nat)) = none ∨ 1 < RING_BUFFER_MIN_SIZE) ∧
    ((ring_buffer_create [] (some freshDesc) (some [9, 9]) 1
        RING_BUFFER_TYPE_LOCKFREE).2 = false ∧
      (ring_buffer_create [] (some freshDesc) (some [9, 9]) 1
        RING_BUFFER_TYPE_LOCKFREE).1 = some freshDesc ∧
      (∀ d, (some freshDesc : Option RBDesc) = some d → d.ops = none →
        (∀ b, ring_buffer_write (some freshDesc) b = (some freshDesc, false)) ∧
        ring_buffer_read (some freshDesc) = (some freshDesc, none) ∧
        (∀ ds len, ring_buffer_write_multi (some freshDesc) ds len
            = (some freshDesc, 0)) ∧
        (∀ len, ring_buffer_read_multi (some freshDesc) len
            = (some freshDesc, [])) ∧
        ring_buffer_available (some freshDesc) = 0 ∧
        ring_buffer_free_space (some freshDesc) = 0 ∧
        ring_buffer_is_empty (some freshDesc) = true ∧
        ring_buffer_is_full (some freshDesc) = false ∧
        ring_buffer_clear (some freshDesc) = some freshDesc)) :=
  have hfail : (some freshDesc : Option RBDesc) = none ∨
      (some [9, 9] : Option (List Nat)) = none ∨ 1 < RING_BUFFER_MIN_SIZE :=
    Or.inr (Or.inr (by decide))
  ⟨hfail, claim_create_failure_amended [] (some freshDesc) (some [9, 9]) 1
    RING_BUFFER_TYPE_LOCKFREE hfail⟩

/-- C7 counterexample: the failing `create(desc, storage, 1, Lockfree)` —
which the claim says must record `RB_ERR_INVALID_SIZE` in the process-wide
last-error value — leaves that value unchanged at `RB_OK` ("Success"): no
function of the sources ever writes `g_ring_buffer_errno` (the
`RB_SET_ERRNO` / `RB_CHECK_RETURN` macros exist but are never invoked). -/
theorem claim_errno_counterexample :
    (createCall ⟨RB_OK, []⟩ (some freshDesc) (some [9, 9]) 1
        RING_BUFFER_TYPE_LOCKFREE).2.2 = false ∧
    (createCall ⟨RB_OK, []⟩ (some freshDesc) (some [9, 9]) 1
        RING_BUFFER_TYPE_LOCKFREE).1.errno = RB_OK ∧
    RB_OK ≠ RB_ERR_INVALID_SIZE :=
  ⟨rfl, rfl, by decide⟩

/-- C7 (amended): the process-wide last-error value is readable via
`get_errno` and resettable via `clear_errno`, but the fallible operations
never write it: every `create` and `register_strategy` call — succeeding or
failing — leaves it exactly as it was. -/
theorem claim_errno_amended (s : ProcState) (rb : Option RBDesc)
    (buffer : Option (List Nat)) (size type : Nat) (ops : Option RBOpsTable) :
    (createCall s rb buffer size type).1.errno = ring_buffer_get_errno s ∧
    (registerCall s type ops).1.errno = ring_buffer_get_errno s ∧
    ring_buffer_get_errno (ring_buffer_clear_errno s) = RB_OK :=
  ⟨rfl, rfl, rfl⟩

/-- C10: `destroy` zeroes the storage reference, capacity, both indices, the
lock handle and the operation-set reference; it releases the lock resource
exactly when one was held, and because the result has a null lock handle, a
second `destroy` performs no lock release and yields the same zeroed
descriptor: destroy after destroy equals destroy. -/
theorem claim_destroy_idempotent (d : RBDesc) :
    (ring_buffer_destroy (some d)).1 = some zeroedDesc ∧
    (ring_buffer_destroy (some d)).2 = (if d.lock then 1 else 0) ∧
    ring_buffer_destroy ((ring_buffer_destroy (some d)).1)
        = (some zeroedDesc, 0) ∧
    zeroedDesc.core.buffer = none ∧ zeroedDesc.core.size = 0 ∧
    zeroedDesc.core.head = 0 ∧ zeroedDesc.core.tail = 0 ∧
    zeroedDesc.lock = false ∧ zeroedDesc.ops = none := by
  refine ⟨rfl, ?_, rfl, rfl, rfl, rfl, rfl, rfl, rfl⟩
  by_cases hl : d.lock
  · simp [ring_buffer_destroy, ring_buffer_mutex_deinit, hl]
  · simp [ring_buffer_destroy, hl]
